import Mathlib

/-!
Shallow embedding of the version-resolution and redundancy-elimination engine of
the setup-dotnet action, together with proofs about its deduplication,
cache-key and api-cache behaviour.

Sources embedded:
- src/utils/versioning/version-deduplicator.ts  (deduplicateVersions, removeDuplicatesWithinType)
- the legacy deduplicator variant (same function names, returns original specifiers)
- the archive cache-key generator (generateCacheKey)
- src/utils/api-cache.ts (getCachedResponse, fetchWithCache)
- src/main.ts (getCacheHitStatusFromResults)

The external collaborators that are not part of the engine (the version
resolver, the sdk-runtime mapper, the platform probe, the network fetch and the
filesystem) are passed in as explicit function arguments or as explicit state,
so every theorem quantifies over their behaviour.
-/

/-- Artifact type, from src/types.ts: DotnetType = sdk | runtime | aspnetcore. -/
inductive DotnetType
  | sdk
  | runtime
  | aspnetcore
deriving DecidableEq

/-- One per-type request block of VersionSetWithPrerelease: a list of version
specifiers plus the allowPrerelease flag. -/
structure VersionInfo where
  versions : List String
  allowPrerelease : Bool
deriving DecidableEq

/-- Input of deduplicateVersions (src/types.ts VersionSetWithPrerelease). -/
structure VersionSetWithPrerelease where
  sdk : VersionInfo
  runtime : VersionInfo
  aspnetcore : VersionInfo
deriving DecidableEq

/-- Output of deduplicateVersions (src/types.ts VersionSet): three plain lists
of version strings. -/
structure VersionSet where
  sdk : List String
  runtime : List String
  aspnetcore : List String
deriving DecidableEq

/-- The record built for every specifier inside deduplicateVersions:
the original specifier and the version it resolved to. -/
structure ResolvedEntry where
  original : String
  resolved : String
deriving DecidableEq

/-- Result of getSdkIncludedVersions (sdk-runtime-mapper): the runtime and
aspnetcore versions bundled in a given SDK, or null when unknown. -/
structure SdkIncludedVersions where
  runtime : Option String
  aspnetcore : Option String
deriving DecidableEq

/-- The version resolver (src/utils/versioning/version-resolver.ts is not part
of this snapshot; the deduplicator only calls it).  It receives the specifier,
the artifact type and the allowPrerelease flag and either returns a concrete
version or throws; a thrown error is modelled as Except.error. -/
abbrev Resolver := String → DotnetType → Bool → Except String String

/-- The sdk-runtime mapper as used by the deduplicator.  Per the spec it never
fails: an unknown SDK yields none fields. -/
abbrev SdkMapper := String → SdkIncludedVersions

/-- versions.map of the resolving closure, lines 10-27 of
version-deduplicator.ts.  Array.prototype.map runs the callback sequentially
and the first thrown error aborts the whole call, which is exactly the
fail-fast behaviour of mapM over Except. -/
def resolveList (resolve : Resolver) (t : DotnetType) (allow : Bool) :
    List String → Except String (List ResolvedEntry)
  | [] => Except.ok []
  | v :: rest => do
    let r ← resolve v t allow
    let rs ← resolveList resolve t allow rest
    Except.ok ({ original := v, resolved := r } :: rs)

/-- Recursion of removeDuplicatesWithinType (lines 91-110): seen guards on the
resolved version and the resolved version is pushed. -/
def removeDupsAux (seen : List String) : List ResolvedEntry → List String
  | [] => []
  | v :: rest =>
    if seen.contains v.resolved then removeDupsAux seen rest
    else v.resolved :: removeDupsAux (v.resolved :: seen) rest

/-- removeDuplicatesWithinType of version-deduplicator.ts: collapse entries with
equal resolved versions, keep the first occurrence, return the resolved
versions. -/
def removeDuplicatesWithinType (versions : List ResolvedEntry) : List String :=
  removeDupsAux [] versions

/-- The sdkIncludedRuntimes set of lines 39-45: only included.runtime is ever
added (included.aspnetcore is not consulted).  A JS Set is modelled as a list
used only through membership. -/
def sdkIncludedRuntimesOf (mapper : SdkMapper) (resolvedSdk : List ResolvedEntry) :
    List String :=
  resolvedSdk.filterMap (fun s => (mapper s.resolved).runtime)

/-- Filter predicate on runtime entries, lines 47-59: keep unless the resolved
version is in sdkIncludedRuntimes, aspnetcoreSet or sdkSet. -/
def runtimeKeep (sdkIncluded aspnetcoreSet sdkSet : List String)
    (v : ResolvedEntry) : Bool :=
  if sdkIncluded.contains v.resolved then false
  else if aspnetcoreSet.contains v.resolved || sdkSet.contains v.resolved then false
  else true

/-- Filter predicate on aspnetcore entries, lines 61-75: keep unless the
resolved version is in sdkIncludedRuntimes or sdkSet. -/
def aspnetcoreKeep (sdkIncluded sdkSet : List String) (v : ResolvedEntry) : Bool :=
  if sdkIncluded.contains v.resolved then false
  else if sdkSet.contains v.resolved then false
  else true

/-- Lines 29-88 of deduplicateVersions, after all specifiers resolved: build the
lookup sets, cross-type filter, then within-type dedup. -/
def dedupCore (mapper : SdkMapper)
    (resolvedSdk resolvedRuntime resolvedAspnetcore : List ResolvedEntry) :
    VersionSet :=
  let sdkSet := resolvedSdk.map (fun v => v.resolved)
  let aspnetcoreSet := resolvedAspnetcore.map (fun v => v.resolved)
  let included := sdkIncludedRuntimesOf mapper resolvedSdk
  let filteredRuntime := resolvedRuntime.filter (runtimeKeep included aspnetcoreSet sdkSet)
  let filteredAspnetcore := resolvedAspnetcore.filter (aspnetcoreKeep included sdkSet)
  { sdk := removeDuplicatesWithinType resolvedSdk
    runtime := removeDuplicatesWithinType filteredRuntime
    aspnetcore := removeDuplicatesWithinType filteredAspnetcore }

/-- deduplicateVersions of src/utils/versioning/version-deduplicator.ts: resolve
every specifier per type (fail-fast), then deduplicate. -/
def deduplicateVersions (resolve : Resolver) (mapper : SdkMapper)
    (versions : VersionSetWithPrerelease) : Except String VersionSet := do
  let resolvedSdk ← resolveList resolve DotnetType.sdk versions.sdk.allowPrerelease versions.sdk.versions
  let resolvedRuntime ← resolveList resolve DotnetType.runtime versions.runtime.allowPrerelease versions.runtime.versions
  let resolvedAspnetcore ← resolveList resolve DotnetType.aspnetcore versions.aspnetcore.allowPrerelease versions.aspnetcore.versions
  Except.ok (dedupCore mapper resolvedSdk resolvedRuntime resolvedAspnetcore)

/-! The legacy deduplicator variant found in the repository (the file imports
only the resolver, takes a plain VersionSet, has no sdk-included logic, and its
removeDuplicatesWithinType pushes the original specifier). -/

/-- Legacy resolver signature: resolveVersion(version, type), no prerelease
flag. -/
abbrev LegacyResolver := String → DotnetType → Except String String

/-- Legacy within-type dedup: seen guards on the resolved version but the
ORIGINAL specifier is pushed into the result. -/
def legacyRemoveDupsAux (seen : List String) : List ResolvedEntry → List String
  | [] => []
  | v :: rest =>
    if seen.contains v.resolved then legacyRemoveDupsAux seen rest
    else v.original :: legacyRemoveDupsAux (v.resolved :: seen) rest

/-- Legacy removeDuplicatesWithinType. -/
def legacyRemoveDuplicatesWithinType (versions : List ResolvedEntry) : List String :=
  legacyRemoveDupsAux [] versions

/-- Legacy per-list resolution (Promise.all over the mapped resolver calls: any
rejection rejects the whole batch). -/
def legacyResolveList (resolve : LegacyResolver) (t : DotnetType) :
    List String → Except String (List ResolvedEntry)
  | [] => Except.ok []
  | v :: rest => do
    let r ← resolve v t
    let rs ← legacyResolveList resolve t rest
    Except.ok ({ original := v, resolved := r } :: rs)

/-- Legacy deduplicateVersions: runtime dropped when covered by aspnetcore or
sdk, aspnetcore dropped when covered by sdk, then within-type dedup returning
original specifiers. -/
def legacyDeduplicateVersions (resolve : LegacyResolver) (versions : VersionSet) :
    Except String VersionSet := do
  let resolvedSdk ← legacyResolveList resolve DotnetType.sdk versions.sdk
  let resolvedRuntime ← legacyResolveList resolve DotnetType.runtime versions.runtime
  let resolvedAspnetcore ← legacyResolveList resolve DotnetType.aspnetcore versions.aspnetcore
  let sdkSet := resolvedSdk.map (fun v => v.resolved)
  let aspnetcoreSet := resolvedAspnetcore.map (fun v => v.resolved)
  let filteredRuntime := resolvedRuntime.filter
    (fun v => !(aspnetcoreSet.contains v.resolved || sdkSet.contains v.resolved))
  let filteredAspnetcore := resolvedAspnetcore.filter
    (fun v => !(sdkSet.contains v.resolved))
  Except.ok
    { sdk := legacyRemoveDuplicatesWithinType resolvedSdk
      runtime := legacyRemoveDuplicatesWithinType filteredRuntime
      aspnetcore := legacyRemoveDuplicatesWithinType filteredAspnetcore }

/-- Within-type collapse as the spec words it: keep the first occurrence of
every version in original request order.  Modelled from the spec for comparison
with removeDuplicatesWithinType. -/
def firstOccurrencesAux (seen : List String) : List String → List String
  | [] => []
  | v :: rest =>
    if seen.contains v then firstOccurrencesAux seen rest
    else v :: firstOccurrencesAux (v :: seen) rest

/-- Modelled from the spec: step 5 of the deduplication algorithm, collapsing a
list of resolved versions to first occurrences. -/
def firstOccurrences (l : List String) : List String :=
  firstOccurrencesAux [] l

/-- The merged sdk-included set as the spec defines it (step 1: runtime and
aspnetcore included-versions merged).  Modelled from the spec for comparison
with the sdkIncludedRuntimes the code actually builds. -/
def mergedIncludedOf (mapper : SdkMapper) (sdkVersions : List String) : List String :=
  sdkVersions.filterMap (fun s => (mapper s).runtime) ++
    sdkVersions.filterMap (fun s => (mapper s).aspnetcore)

/-- Hierarchy invariant exactly as claimed: no surviving runtime or aspnetcore
version equals an sdk version or a member of the merged included set. -/
def hierarchyInvariantMerged (mapper : SdkMapper) (out : VersionSet) : Prop :=
  ∀ v ∈ out.runtime ++ out.aspnetcore,
    v ∉ out.sdk ∧ v ∉ mergedIncludedOf mapper out.sdk

instance (mapper : SdkMapper) (out : VersionSet) :
    Decidable (hierarchyInvariantMerged mapper out) := by
  unfold hierarchyInvariantMerged
  infer_instance

/-- InstallationResult of src/main.ts. -/
structure InstallationResult where
  version : String
  type : DotnetType
  path : String
  cacheHit : Bool
deriving DecidableEq

/-- getCacheHitStatusFromResults of src/main.ts lines 201-217. -/
def getCacheHitStatusFromResults (installations : List InstallationResult) : String :=
  if installations.length = 0 then "false"
  else
    let cacheHitCount := (installations.filter (fun i => i.cacheHit)).length
    if cacheHitCount = installations.length then "true"
    else if cacheHitCount > 0 then "partial"
    else "false"

/-! Archive cache-key generation.  The source serializes the final plan as
type:version tuples, sorts them, joins with commas, hashes with SHA-256 and
keeps the first 12 hex characters.  SHA-256 is implemented below over byte
lists with Nat arithmetic taken modulo 2 to the 32. -/

/-- 32-bit right rotation on a Nat below 2 to the 32. -/
def rotr32 (x n : Nat) : Nat :=
  ((x >>> n) ||| (x <<< (32 - n))) % 4294967296

/-- SHA-256 small sigma 0. -/
def smallSigma0 (x : Nat) : Nat := (rotr32 x 7) ^^^ (rotr32 x 18) ^^^ (x >>> 3)

/-- SHA-256 small sigma 1. -/
def smallSigma1 (x : Nat) : Nat := (rotr32 x 17) ^^^ (rotr32 x 19) ^^^ (x >>> 10)

/-- SHA-256 big sigma 0. -/
def bigSigma0 (x : Nat) : Nat := (rotr32 x 2) ^^^ (rotr32 x 13) ^^^ (rotr32 x 22)

/-- SHA-256 big sigma 1. -/
def bigSigma1 (x : Nat) : Nat := (rotr32 x 6) ^^^ (rotr32 x 11) ^^^ (rotr32 x 25)

/-- SHA-256 choice function; complement is xor with the 32-bit mask. -/
def chNat (x y z : Nat) : Nat := (x &&& y) ^^^ ((x ^^^ 4294967295) &&& z)

/-- SHA-256 majority function. -/
def majNat (x y z : Nat) : Nat := (x &&& y) ^^^ (x &&& z) ^^^ (y &&& z)

/-- SHA-256 round constants. -/
def sha256K : List Nat :=
  [1116352408, 1899447441, 3049323471, 3921009573, 961987163,
   1508970993, 2453635748, 2870763221, 3624381080, 310598401,
   607225278, 1426881987, 1925078388, 2162078206, 2614888103,
   3248222580, 3835390401, 4022224774, 264347078, 604807628,
   770255983, 1249150122, 1555081692, 1996064986, 2554220882,
   2821834349, 2952996808, 3210313671, 3336571891, 3584528711,
   113926993, 338241895, 666307205, 773529912, 1294757372,
   1396182291, 1695183700, 1986661051, 2177026350, 2456956037,
   2730485921, 2820302411, 3259730800, 3345764771, 3516065817,
   3600352804, 4094571909, 275423344, 430227734, 506948616,
   659060556, 883997877, 958139571, 1322822218, 1537002063,
   1747873779, 1955562222, 2024104815, 2227730452, 2361852424,
   2428436474, 2756734187, 3204031479, 3329325298]


/-- SHA-256 initial hash state. -/
def sha256H0 : List Nat :=
  [1779033703, 3144134277, 1013904242, 2773480762, 1359893119,
   2600822924, 528734635, 1541459225]


/-- SHA-256 message padding: append 0x80, zeros to 56 mod 64, then the bit
length as 8 big-endian bytes. -/
def sha256pad (msg : List Nat) : List Nat :=
  let bitLen := msg.length * 8
  let k := (120 - (msg.length + 1) % 64) % 64
  msg ++ [0x80] ++ List.replicate k 0 ++
    (List.range 8).map (fun i => (bitLen >>> ((7 - i) * 8)) % 256)

/-- Split a byte list into 64-byte blocks. -/
def chunks64 (l : List Nat) : List (List Nat) :=
  if h : l = [] then []
  else l.take 64 :: chunks64 (l.drop 64)
termination_by l.length
decreasing_by
  have hlen : l.length ≠ 0 := fun hz => h (List.eq_nil_of_length_eq_zero hz)
  simp only [List.length_drop]
  omega

/-- Pack bytes into 32-bit big-endian words. -/
def toWords : List Nat → List Nat
  | b0 :: b1 :: b2 :: b3 :: rest =>
    (((b0 * 256 + b1) * 256 + b2) * 256 + b3) :: toWords rest
  | _ => []

/-- Extend the 16 block words to the 64-entry message schedule. -/
def buildSchedule (w0 : List Nat) : List Nat :=
  (List.range 48).foldl
    (fun w _ =>
      let n := w.length
      let x := (smallSigma1 (w.getD (n - 2) 0) + w.getD (n - 7) 0 +
        smallSigma0 (w.getD (n - 15) 0) + w.getD (n - 16) 0) % 4294967296
      w ++ [x])
    w0

/-- One SHA-256 compression step over the state [a, b, c, d, e, f, g, h]. -/
def sha256Round (st : List Nat) (kw : Nat × Nat) : List Nat :=
  match st with
  | [a, b, c, d, e, f, g, hh] =>
    let t1 := (hh + bigSigma1 e + chNat e f g + kw.1 + kw.2) % 4294967296
    let t2 := (bigSigma0 a + majNat a b c) % 4294967296
    [(t1 + t2) % 4294967296, a, b, c, (d + t1) % 4294967296, e, f, g]
  | other => other

/-- Compress one 64-byte block into the running hash state. -/
def compressBlock (h : List Nat) (block : List Nat) : List Nat :=
  let w := buildSchedule (toWords block)
  let final := (sha256K.zip w).foldl sha256Round h
  (h.zip final).map (fun p => (p.1 + p.2) % 4294967296)

/-- SHA-256 of a byte list, as the list of 8 state words. -/
def sha256Words (msg : List Nat) : List Nat :=
  (chunks64 (sha256pad msg)).foldl compressBlock sha256H0

/-- Lower-case hex digit. -/
def hexDigit (n : Nat) : Char :=
  if n < 10 then Char.ofNat (48 + n) else Char.ofNat (87 + n)

/-- 8-character hex rendering of one 32-bit word. -/
def word2hex (w : Nat) : List Char :=
  (List.range 8).map (fun i => hexDigit ((w >>> ((7 - i) * 4)) % 16))

/-- UTF-8 bytes of a string as Nats. -/
def strBytes (s : String) : List Nat :=
  s.toUTF8.toList.map (fun b => b.toNat)

/-- crypto.createHash sha256 .update(s) .digest hex. -/
def sha256hex (s : String) : String :=
  String.mk (((sha256Words (strBytes s)).map word2hex).flatten)

/-- hash.substring(0, 12). -/
def shortHash12 (s : String) : String :=
  String.mk (s.data.take 12)

/-- CacheVersions of the cache-utils module: the final plan handed to the
archive cache key generator. -/
structure CacheVersions where
  sdk : List String
  runtime : List String
  aspnetcore : List String
deriving DecidableEq

/-- The serialized plan before sorting: one type:version string per entry, sdk
entries first, then runtime, then aspnetcore. -/
def serializePlan (v : CacheVersions) : List String :=
  v.sdk.map (fun s => "sdk:" ++ s) ++ v.runtime.map (fun s => "runtime:" ++ s) ++
    v.aspnetcore.map (fun s => "aspnetcore:" ++ s)

/-- Array.prototype.join with a comma separator. -/
def joinComma : List String → String
  | [] => ""
  | [a] => a
  | a :: rest => a ++ "," ++ joinComma rest

/-- Lexicographic comparison of character lists by code point, the order
localeCompare induces on these ASCII tuple strings. -/
def charListLe : List Char → List Char → Bool
  | [], _ => true
  | _ :: _, [] => false
  | a :: as, b :: bs => if a = b then charListLe as bs else decide (a < b)

/-- String comparison used to sort the serialized tuples. -/
def strLe (a b : String) : Bool := charListLe a.data b.data

/-- The deterministic version string: serialized tuples sorted (localeCompare on
these ASCII tuple strings is modelled by the lexicographic string order; every
result below is independent of which linear order sorts the list) and joined
with commas. -/
def versionString (v : CacheVersions) : String :=
  joinComma (List.insertionSort (fun a b => strLe a b = true) (serializePlan v))

/-- generateCacheKey of the cache-utils module.  getPlatform and
getArchitecture probe the host, so platform and arch are parameters here. -/
def generateCacheKey (platform arch : String) (v : CacheVersions) : String :=
  "dotnet-archives-" ++ platform ++ "-" ++ arch ++ "-" ++
    shortHash12 (sha256hex (versionString v))

/-- The plan as (type, version) tuples, the content the cache key is claimed to
be injective in. -/
def planTuples (v : CacheVersions) : List (String × String) :=
  v.sdk.map (fun s => ("sdk", s)) ++ v.runtime.map (fun s => ("runtime", s)) ++
    v.aspnetcore.map (fun s => ("aspnetcore", s))

/-- Serialization of one plan tuple. -/
def tupleStr (t : String × String) : String :=
  t.1 ++ ":" ++ t.2

/-- Split a character list at the first colon. -/
def splitAtColon : List Char → List Char × List Char
  | [] => ([], [])
  | c :: rest =>
    if c = ':' then ([], rest)
    else
      let p := splitAtColon rest
      (c :: p.1, p.2)

/-- Recover a (type, version) tuple from its serialization. -/
def parseTuple (s : String) : String × String :=
  let p := splitAtColon s.data
  (String.mk p.1, String.mk p.2)

/-! Api-cache model (src/utils/api-cache.ts).  The filesystem read, JSON.parse
and property access are modelled by an explicit description of the cache file
seen by getCachedResponse; the network fetch is an explicit Except argument.
The actions-cache restore preamble of fetchWithCache (lines 200-209) only
mutates bookkeeping state and its errors are swallowed, so it does not affect
the returned value and is not part of the model. -/

/-- A JSON object field as JavaScript sees it: missing (undefined), null, or
some other value (the payload is abstracted as a string). -/
inductive JsField
  | absent
  | jsnull
  | value (s : String)
deriving DecidableEq

/-- What the cached file for a URL looks like to getCachedResponse:
missing file (readFile throws), unparseable text (JSON.parse throws), JSON
null (property access throws), or a parsed value with the numeric value of its
timestamp field (none when the field is missing or not number-coercible, in
which case the age comparison is NaN-false) and its data field. -/
inductive CacheFileState
  | missing
  | notJson
  | jsonNull
  | jsonObj (timestamp : Option Int) (data : JsField)
deriving DecidableEq

/-- A JavaScript value returned by getCachedResponse; null and undefined are
distinct, which is what the cachedData !== null test in fetchWithCache sees. -/
inductive JsResult
  | jsNull
  | jsUndefined
  | jsValue (s : String)
deriving DecidableEq

/-- CACHE_DURATION_MS = 12 hours. -/
def cacheDurationMs : Int := 12 * 60 * 60 * 1000

/-- getCachedResponse, api-cache.ts lines 53-78.  Every throwing path lands in
the catch and yields null; a parsed object with a fresh numeric timestamp
yields its data field (cached.data), which is undefined when the field is
absent and null when the field is null. -/
def getCachedResponse (cacheEnabled : Bool) (file : CacheFileState) (now : Int) :
    JsResult :=
  if !cacheEnabled then JsResult.jsNull
  else
    match file with
    | CacheFileState.missing => JsResult.jsNull
    | CacheFileState.notJson => JsResult.jsNull
    | CacheFileState.jsonNull => JsResult.jsNull
    | CacheFileState.jsonObj ts data =>
      match ts with
      | none => JsResult.jsNull
      | some t =>
        if now - t < cacheDurationMs then
          match data with
          | JsField.absent => JsResult.jsUndefined
          | JsField.jsnull => JsResult.jsNull
          | JsField.value s => JsResult.jsValue s
        else JsResult.jsNull

/-- fetchWithCache, api-cache.ts lines 199-233: return the cached data when it
is not null, otherwise fetch fresh data, failing only when the fetch itself
fails (saveCachedResponse swallows its own errors). -/
def fetchWithCache (cacheEnabled : Bool) (file : CacheFileState) (now : Int)
    (fetchResult : Except String String) : Except String JsResult :=
  match getCachedResponse cacheEnabled file now with
  | JsResult.jsNull =>
    match fetchResult with
    | Except.error e => Except.error ("API request failed: " ++ e)
    | Except.ok d => Except.ok (JsResult.jsValue d)
  | r => Except.ok r

/-- A cache file that is valid cached-response JSON: a parsed object carrying a
numeric timestamp and a data field. -/
def isValidCachedResponse : CacheFileState → Bool
  | CacheFileState.jsonObj (some _) JsField.jsnull => true
  | CacheFileState.jsonObj (some _) (JsField.value _) => true
  | _ => false

/-- Rewraps a deduplication output as a new input carrying the allowPrerelease
flags of a previous input, for the idempotence statement. -/
def withFlags (out : VersionSet) (versions : VersionSetWithPrerelease) :
    VersionSetWithPrerelease :=
  { sdk := { versions := out.sdk, allowPrerelease := versions.sdk.allowPrerelease }
    runtime := { versions := out.runtime, allowPrerelease := versions.runtime.allowPrerelease }
    aspnetcore := { versions := out.aspnetcore, allowPrerelease := versions.aspnetcore.allowPrerelease } }

/-! Concrete instances used by counterexamples and witnesses. -/

/-- A resolver that returns every specifier unchanged (all specifiers already
concrete). -/
def cexResolveId : Resolver := fun v _ _ => Except.ok v

/-- A mapper with no bundling information. -/
def cexMapperNone : SdkMapper := fun _ => { runtime := none, aspnetcore := none }

/-- A mapper whose SDK 8.0.100 bundles runtime 8.0.1 and aspnetcore 8.0.2
(distinct versions, as the mapper interface allows). -/
def cexMapper1 : SdkMapper := fun s =>
  if s = "8.0.100" then { runtime := some "8.0.1", aspnetcore := some "8.0.2" }
  else { runtime := none, aspnetcore := none }

/-- A legacy resolver mapping the wildcard 8.0.x to 8.0.23. -/
def cexLegacyResolve : LegacyResolver := fun v _ =>
  if v = "8.0.x" then Except.ok "8.0.23" else Except.ok v

/-- A resolver that fails on one specifier. -/
def cexResolveFailing : Resolver := fun v _ _ =>
  if v = "9.9.x" then Except.error "NoMatchingRelease: 9.9.x" else Except.ok v

/-- Entries whose original specifier is already the resolved version. -/
def idsOf (l : List String) : List ResolvedEntry :=
  l.map (fun v => { original := v, resolved := v })


/-! Helper lemmas about the deduplicator. -/

@[simp]
theorem contains_true_iff (l : List String) (x : String) :
    l.contains x = true ↔ x ∈ l := by
  simp [List.contains, List.elem_iff]

theorem removeDupsAux_cons_mem (seen : List String) (v : ResolvedEntry)
    (rest : List ResolvedEntry) (hv : v.resolved ∈ seen) :
    removeDupsAux seen (v :: rest) = removeDupsAux seen rest := by
  simp only [removeDupsAux]
  rw [if_pos ((contains_true_iff _ _).mpr hv)]

theorem removeDupsAux_cons_not_mem (seen : List String) (v : ResolvedEntry)
    (rest : List ResolvedEntry) (hv : v.resolved ∉ seen) :
    removeDupsAux seen (v :: rest) =
      v.resolved :: removeDupsAux (v.resolved :: seen) rest := by
  have hc : seen.contains v.resolved = false := by
    cases hcc : seen.contains v.resolved
    · rfl
    · exact absurd ((contains_true_iff _ _).mp hcc) hv
  simp only [removeDupsAux]
  rw [if_neg (by rw [hc]; exact Bool.false_ne_true)]

theorem mem_removeDupsAux (l : List ResolvedEntry) :
    ∀ (seen : List String) (x : String),
    x ∈ removeDupsAux seen l ↔ x ∈ l.map (fun e => e.resolved) ∧ x ∉ seen := by
  induction l with
  | nil => intro seen x; simp [removeDupsAux]
  | cons v rest ih =>
    intro seen x
    by_cases hv : v.resolved ∈ seen
    · rw [removeDupsAux_cons_mem seen v rest hv, ih]
      simp only [List.map_cons, List.mem_cons]
      constructor
      · rintro ⟨hm, hs⟩; exact ⟨Or.inr hm, hs⟩
      · rintro ⟨hor, hs⟩
        cases hor with
        | inl he => exact absurd (he ▸ hv) hs
        | inr hm => exact ⟨hm, hs⟩
    · rw [removeDupsAux_cons_not_mem seen v rest hv]
      simp only [List.map_cons, List.mem_cons]
      constructor
      · rintro (he | hm)
        · exact ⟨Or.inl he, he ▸ hv⟩
        · have := (ih _ x).mp hm
          refine ⟨Or.inr this.1, fun hs => this.2 (List.mem_cons_of_mem _ hs)⟩
      · rintro ⟨hor, hs⟩
        cases hor with
        | inl he => exact Or.inl he
        | inr hm =>
          by_cases hx : x = v.resolved
          · exact Or.inl hx
          · refine Or.inr ((ih _ x).mpr ⟨hm, fun hh => ?_⟩)
            rcases List.mem_cons.mp hh with h1 | h1
            · exact hx h1
            · exact hs h1

theorem mem_removeDuplicatesWithinType (l : List ResolvedEntry) (x : String) :
    x ∈ removeDuplicatesWithinType l ↔ x ∈ l.map (fun e => e.resolved) := by
  simp [removeDuplicatesWithinType, mem_removeDupsAux]

theorem nodup_removeDupsAux (l : List ResolvedEntry) :
    ∀ seen : List String, (removeDupsAux seen l).Nodup := by
  induction l with
  | nil => intro seen; simp [removeDupsAux]
  | cons v rest ih =>
    intro seen
    by_cases hv : v.resolved ∈ seen
    · rw [removeDupsAux_cons_mem seen v rest hv]; exact ih seen
    · rw [removeDupsAux_cons_not_mem seen v rest hv]
      refine List.nodup_cons.mpr ⟨fun hm => ?_, ih _⟩
      have := (mem_removeDupsAux rest (v.resolved :: seen) v.resolved).mp hm
      exact this.2 (List.mem_cons_self _ _)

/-- C10: for every list of installation results the reported cache-hit status is
the string false when the list is empty or no result was a cache hit, true when
the list is non-empty and every result was a cache hit, and partial when at
least one but not all results were cache hits. -/
theorem c10_cache_hit_status (l : List InstallationResult) :
    (getCacheHitStatusFromResults l = "false" ↔ l = [] ∨ ∀ i ∈ l, i.cacheHit = false) ∧
    (getCacheHitStatusFromResults l = "true" ↔ l ≠ [] ∧ ∀ i ∈ l, i.cacheHit = true) ∧
    (getCacheHitStatusFromResults l = "partial" ↔
      (∃ i ∈ l, i.cacheHit = true) ∧ ∃ i ∈ l, i.cacheHit = false) := by
  by_cases hnil : l = []
  · subst hnil
    have hs : getCacheHitStatusFromResults [] = "false" := rfl
    refine ⟨iff_of_true hs (Or.inl rfl), iff_of_false ?_ ?_, iff_of_false ?_ ?_⟩
    · rw [hs]; decide
    · rintro ⟨h, -⟩; exact h rfl
    · rw [hs]; decide
    · rintro ⟨⟨a, ha, -⟩, -⟩; cases ha
  · have hlen : ¬ l.length = 0 := fun hz => hnil (List.eq_nil_of_length_eq_zero hz)
    obtain ⟨a0, ha0⟩ := List.exists_mem_of_ne_nil l hnil
    by_cases hall : ∀ i ∈ l, i.cacheHit = true
    · have hflt : (l.filter (fun i => i.cacheHit)).length = l.length :=
        List.filter_length_eq_length.mpr hall
      have hs : getCacheHitStatusFromResults l = "true" := by
        simp [getCacheHitStatusFromResults, hlen, hflt]
      refine ⟨iff_of_false ?_ ?_, iff_of_true hs ⟨hnil, hall⟩, iff_of_false ?_ ?_⟩
      · rw [hs]; decide
      · rintro (h | h)
        · exact hnil h
        · have h1 := hall a0 ha0
          rw [h a0 ha0] at h1
          cases h1
      · rw [hs]; decide
      · rintro ⟨-, ⟨b, hb, hfb⟩⟩
        have h1 := hall b hb
        rw [hfb] at h1
        cases h1
    · have hne : (l.filter (fun i => i.cacheHit)).length ≠ l.length := by
        rw [Ne, List.filter_length_eq_length]
        exact hall
      by_cases hpos : ∃ i ∈ l, i.cacheHit = true
      · obtain ⟨a, ha, hta⟩ := hpos
        have hppos : 0 < (l.filter (fun i => i.cacheHit)).length := by
          apply List.length_pos.mpr
          intro hfe
          have : a ∈ l.filter (fun i => i.cacheHit) := by
            rw [List.mem_filter]; exact ⟨ha, hta⟩
          rw [hfe] at this
          cases this
        obtain ⟨b, hb, hfb⟩ : ∃ i ∈ l, i.cacheHit = false := by
          by_contra hno
          push_neg at hno
          refine hall fun c hc => ?_
          cases hcb : c.cacheHit with
          | true => rfl
          | false => exact absurd hcb (hno c hc)
        have hs : getCacheHitStatusFromResults l = "partial" := by
          simp [getCacheHitStatusFromResults, hlen, hne, hppos]
        refine ⟨iff_of_false ?_ ?_, iff_of_false ?_ ?_, iff_of_true hs ⟨⟨a, ha, hta⟩, b, hb, hfb⟩⟩
        · rw [hs]; decide
        · rintro (h | h)
          · exact hnil h
          · have h1 := h a ha
            rw [hta] at h1
            cases h1
        · rw [hs]; decide
        · rintro ⟨-, h⟩
          have h1 := h b hb
          rw [hfb] at h1
          cases h1
      · have hfnil : l.filter (fun i => i.cacheHit) = [] := by
          rw [List.filter_eq_nil_iff]
          intro c hc hcb
          exact hpos ⟨c, hc, hcb⟩
        have hs : getCacheHitStatusFromResults l = "false" := by
          simp only [getCacheHitStatusFromResults, hfnil]
          simp [hlen]
          omega
        have hallf : ∀ i ∈ l, i.cacheHit = false := by
          intro c hc
          cases hcb : c.cacheHit with
          | true => exact absurd ⟨c, hc, hcb⟩ hpos
          | false => rfl
        refine ⟨iff_of_true hs (Or.inr hallf), iff_of_false ?_ ?_, iff_of_false ?_ ?_⟩
        · rw [hs]; decide
        · rintro ⟨-, h⟩
          have h1 := hallf a0 ha0
          rw [h a0 ha0] at h1
          cases h1
        · rw [hs]; decide
        · rintro ⟨h, -⟩
          exact hpos h

/-! Lemmas about resolution and the deduplication pipeline. -/

@[simp]
theorem except_ok_bind {α β : Type} (a : α) (f : α → Except String β) :
    (Except.ok a : Except String α) >>= f = f a := rfl

@[simp]
theorem except_error_bind {α β : Type} (e : String) (f : α → Except String β) :
    (Except.error e : Except String α) >>= f = Except.error e := rfl

theorem resolveList_ok_forall (resolve : Resolver) (t : DotnetType) (allow : Bool) :
    ∀ (l : List String) (rs : List ResolvedEntry),
    resolveList resolve t allow l = Except.ok rs →
    ∀ e ∈ rs, e.original ∈ l ∧ resolve e.original t allow = Except.ok e.resolved := by
  intro l
  induction l with
  | nil =>
    intro rs h e he
    simp only [resolveList] at h
    injection h with h2
    subst h2
    cases he
  | cons v rest ih =>
    intro rs h e he
    simp only [resolveList] at h
    cases hr : resolve v t allow with
    | error err => rw [hr] at h; simp at h
    | ok r =>
      rw [hr] at h
      simp only [except_ok_bind] at h
      cases hrs : resolveList resolve t allow rest with
      | error err => rw [hrs] at h; simp at h
      | ok rr =>
        rw [hrs] at h
        simp only [except_ok_bind] at h
        injection h with h2
        subst h2
        rcases List.mem_cons.mp he with he1 | he1
        · subst he1; exact ⟨List.mem_cons_self _ _, hr⟩
        · obtain ⟨h3, h4⟩ := ih rr hrs e he1
          exact ⟨List.mem_cons_of_mem _ h3, h4⟩

theorem resolveList_ok_isOk (resolve : Resolver) (t : DotnetType) (allow : Bool) :
    ∀ (l : List String) (rs : List ResolvedEntry),
    resolveList resolve t allow l = Except.ok rs →
    ∀ v ∈ l, (resolve v t allow).isOk = true := by
  intro l
  induction l with
  | nil => intro rs _ v hv; cases hv
  | cons w rest ih =>
    intro rs h v hv
    simp only [resolveList] at h
    cases hr : resolve w t allow with
    | error err => rw [hr] at h; simp at h
    | ok r =>
      rw [hr] at h
      simp only [except_ok_bind] at h
      cases hrs : resolveList resolve t allow rest with
      | error err => rw [hrs] at h; simp at h
      | ok rr =>
        rcases List.mem_cons.mp hv with hv1 | hv1
        · subst hv1; rw [hr]; rfl
        · exact ih rr hrs v hv1

theorem resolveList_error_mem (resolve : Resolver) (t : DotnetType) (allow : Bool) :
    ∀ (l : List String) (e : String),
    resolveList resolve t allow l = Except.error e →
    ∃ v ∈ l, resolve v t allow = Except.error e := by
  intro l
  induction l with
  | nil => intro e h; simp [resolveList] at h
  | cons v rest ih =>
    intro e h
    simp only [resolveList] at h
    cases hr : resolve v t allow with
    | error err =>
      rw [hr] at h
      simp only [except_error_bind] at h
      injection h with h2
      subst h2
      exact ⟨v, List.mem_cons_self _ _, hr⟩
    | ok r =>
      rw [hr] at h
      simp only [except_ok_bind] at h
      cases hrs : resolveList resolve t allow rest with
      | error err2 =>
        rw [hrs] at h
        simp only [except_error_bind] at h
        injection h with h2
        obtain ⟨w, hw, hwe⟩ := ih err2 hrs
        exact ⟨w, List.mem_cons_of_mem _ hw, h2 ▸ hwe⟩
      | ok rr => rw [hrs] at h; simp at h

theorem resolveList_id (resolve : Resolver) (t : DotnetType) (allow : Bool)
    (l : List String) (hid : ∀ v ∈ l, resolve v t allow = Except.ok v) :
    resolveList resolve t allow l = Except.ok (idsOf l) := by
  induction l with
  | nil => simp [resolveList, idsOf]
  | cons v rest ih =>
    simp only [resolveList]
    rw [hid v (List.mem_cons_self _ _)]
    simp only [except_ok_bind]
    rw [ih (fun w hw => hid w (List.mem_cons_of_mem _ hw))]
    simp [except_ok_bind, idsOf]

theorem deduplicateVersions_ok_iff (resolve : Resolver) (mapper : SdkMapper)
    (vs : VersionSetWithPrerelease) (out : VersionSet) :
    deduplicateVersions resolve mapper vs = Except.ok out ↔
    ∃ rs rr ra,
      resolveList resolve DotnetType.sdk vs.sdk.allowPrerelease vs.sdk.versions = Except.ok rs ∧
      resolveList resolve DotnetType.runtime vs.runtime.allowPrerelease vs.runtime.versions = Except.ok rr ∧
      resolveList resolve DotnetType.aspnetcore vs.aspnetcore.allowPrerelease vs.aspnetcore.versions = Except.ok ra ∧
      out = dedupCore mapper rs rr ra := by
  unfold deduplicateVersions
  cases h1 : resolveList resolve DotnetType.sdk vs.sdk.allowPrerelease vs.sdk.versions with
  | error e =>
    simp only [except_error_bind]
    constructor
    · intro h; cases h
    · rintro ⟨rs, rr, ra, hrs, -⟩
      cases hrs
  | ok rs0 =>
    simp only [except_ok_bind]
    cases h2 : resolveList resolve DotnetType.runtime vs.runtime.allowPrerelease vs.runtime.versions with
    | error e =>
      simp only [except_error_bind]
      constructor
      · intro h; cases h
      · rintro ⟨rs, rr, ra, hrs, hrr, -⟩
        cases hrr
    | ok rr0 =>
      simp only [except_ok_bind]
      cases h3 : resolveList resolve DotnetType.aspnetcore vs.aspnetcore.allowPrerelease vs.aspnetcore.versions with
      | error e =>
        simp only [except_error_bind]
        constructor
        · intro h; cases h
        · rintro ⟨rs, rr, ra, hrs, hrr, hra, -⟩
          cases hra
      | ok ra0 =>
        simp only [except_ok_bind]
        constructor
        · intro h
          injection h with h4
          exact ⟨rs0, rr0, ra0, rfl, rfl, rfl, h4.symm⟩
        · rintro ⟨rs, rr, ra, hrs, hrr, hra, hout⟩
          injection hrs with e1
          injection hrr with e2
          injection hra with e3
          subst e1; subst e2; subst e3
          rw [hout]

theorem dedupCore_sdk (mapper : SdkMapper) (rs rr ra : List ResolvedEntry) :
    (dedupCore mapper rs rr ra).sdk = removeDuplicatesWithinType rs := rfl

theorem dedupCore_runtime (mapper : SdkMapper) (rs rr ra : List ResolvedEntry) :
    (dedupCore mapper rs rr ra).runtime =
      removeDuplicatesWithinType (rr.filter (runtimeKeep (sdkIncludedRuntimesOf mapper rs)
        (ra.map (fun e => e.resolved)) (rs.map (fun e => e.resolved)))) := rfl

theorem dedupCore_aspnetcore (mapper : SdkMapper) (rs rr ra : List ResolvedEntry) :
    (dedupCore mapper rs rr ra).aspnetcore =
      removeDuplicatesWithinType (ra.filter (aspnetcoreKeep (sdkIncludedRuntimesOf mapper rs)
        (rs.map (fun e => e.resolved)))) := rfl

theorem runtimeKeep_eq_true (inc asp sdk : List String) (v : ResolvedEntry) :
    runtimeKeep inc asp sdk v = true ↔
      v.resolved ∉ inc ∧ v.resolved ∉ asp ∧ v.resolved ∉ sdk := by
  simp only [runtimeKeep]
  by_cases h1 : v.resolved ∈ inc
  · rw [if_pos ((contains_true_iff _ _).mpr h1)]
    simp [h1]
  · rw [if_neg (fun hc => h1 ((contains_true_iff _ _).mp hc))]
    by_cases h2 : v.resolved ∈ asp
    · rw [if_pos (by rw [Bool.or_eq_true_iff]; exact Or.inl ((contains_true_iff _ _).mpr h2))]
      simp [h2]
    · by_cases h3 : v.resolved ∈ sdk
      · rw [if_pos (by rw [Bool.or_eq_true_iff]; exact Or.inr ((contains_true_iff _ _).mpr h3))]
        simp [h3]
      · rw [if_neg (fun hc => by
          rcases Bool.or_eq_true_iff.mp hc with hc1 | hc1
          · exact h2 ((contains_true_iff _ _).mp hc1)
          · exact h3 ((contains_true_iff _ _).mp hc1))]
        simp [h1, h2, h3]

theorem aspnetcoreKeep_eq_true (inc sdk : List String) (v : ResolvedEntry) :
    aspnetcoreKeep inc sdk v = true ↔ v.resolved ∉ inc ∧ v.resolved ∉ sdk := by
  simp only [aspnetcoreKeep]
  by_cases h1 : v.resolved ∈ inc
  · rw [if_pos ((contains_true_iff _ _).mpr h1)]
    simp [h1]
  · rw [if_neg (fun hc => h1 ((contains_true_iff _ _).mp hc))]
    by_cases h2 : v.resolved ∈ sdk
    · rw [if_pos ((contains_true_iff _ _).mpr h2)]
      simp [h2]
    · rw [if_neg (fun hc => h2 ((contains_true_iff _ _).mp hc))]
      simp [h1, h2]

theorem mem_sdkIncludedRuntimesOf (mapper : SdkMapper) (rs : List ResolvedEntry) (x : String) :
    x ∈ sdkIncludedRuntimesOf mapper rs ↔
      ∃ e ∈ rs, (mapper e.resolved).runtime = some x := by
  simp [sdkIncludedRuntimesOf]

/-- C1: the hierarchy invariant with the merged included set (bundled runtime
and bundled aspnetcore of every resolved SDK) fails on the code: the
deduplicator never consults the aspnetcore included-version, so an aspnetcore
request equal to an SDK-bundled aspnetcore version survives.  Concretely, with
SDK 8.0.100 bundling runtime 8.0.1 and aspnetcore 8.0.2, the request
aspnetcore 8.0.2 survives although 8.0.2 is in the merged included set. -/
theorem c1_counterexample :
    deduplicateVersions cexResolveId cexMapper1
      { sdk := { versions := ["8.0.100"], allowPrerelease := false }
        runtime := { versions := [], allowPrerelease := false }
        aspnetcore := { versions := ["8.0.2"], allowPrerelease := false } } =
      Except.ok { sdk := ["8.0.100"], runtime := [], aspnetcore := ["8.0.2"] } ∧
    ¬ hierarchyInvariantMerged cexMapper1
      { sdk := ["8.0.100"], runtime := [], aspnetcore := ["8.0.2"] } := by
  constructor
  · rfl
  · intro h
    have := h "8.0.2" (by decide)
    exact this.2 (by decide)

/-- C1 (amended): hierarchy invariant as the code enforces it: no surviving
runtime or aspnetcore resolved version equals any resolved sdk version or any
SDK-bundled RUNTIME version (the bundled aspnetcore versions are not part of
the excluded set). -/
theorem c1_hierarchy_invariant (resolve : Resolver) (mapper : SdkMapper)
    (vs : VersionSetWithPrerelease) (out : VersionSet)
    (h : deduplicateVersions resolve mapper vs = Except.ok out) :
    ∀ v, (v ∈ out.runtime ∨ v ∈ out.aspnetcore) →
      v ∉ out.sdk ∧ ∀ s ∈ out.sdk, (mapper s).runtime ≠ some v := by
  obtain ⟨rs, rr, ra, h1, h2, h3, hout⟩ :=
    (deduplicateVersions_ok_iff resolve mapper vs out).mp h
  subst hout
  intro v hv
  have hinc : v ∉ sdkIncludedRuntimesOf mapper rs ∧ v ∉ rs.map (fun e => e.resolved) := by
    rcases hv with hv | hv
    · rw [dedupCore_runtime, mem_removeDuplicatesWithinType] at hv
      obtain ⟨e, he, hev⟩ := List.mem_map.mp hv
      obtain ⟨hmem, hkeep⟩ := List.mem_filter.mp he
      obtain ⟨k1, k2, k3⟩ := (runtimeKeep_eq_true _ _ _ e).mp hkeep
      exact ⟨hev ▸ k1, hev ▸ k3⟩
    · rw [dedupCore_aspnetcore, mem_removeDuplicatesWithinType] at hv
      obtain ⟨e, he, hev⟩ := List.mem_map.mp hv
      obtain ⟨hmem, hkeep⟩ := List.mem_filter.mp he
      obtain ⟨k1, k2⟩ := (aspnetcoreKeep_eq_true _ _ e).mp hkeep
      exact ⟨hev ▸ k1, hev ▸ k2⟩
  constructor
  · rw [dedupCore_sdk, mem_removeDuplicatesWithinType]
    exact hinc.2
  · intro s hs hsome
    rw [dedupCore_sdk, mem_removeDuplicatesWithinType] at hs
    obtain ⟨a, ha, has⟩ := List.mem_map.mp hs
    apply hinc.1
    exact (mem_sdkIncludedRuntimesOf mapper rs v).mpr ⟨a, ha, by rw [has]; exact hsome⟩

/-- C1 witness: the amended invariant applied to a concrete run. -/
theorem c1_hierarchy_invariant_witness :
    deduplicateVersions cexResolveId cexMapperNone
      { sdk := { versions := ["8.0.100"], allowPrerelease := false }
        runtime := { versions := ["7.0.0"], allowPrerelease := false }
        aspnetcore := { versions := [], allowPrerelease := false } } =
      Except.ok { sdk := ["8.0.100"], runtime := ["7.0.0"], aspnetcore := [] } ∧
    ("7.0.0" ∉ (["8.0.100"] : List String) ∧
      ∀ s ∈ (["8.0.100"] : List String), (cexMapperNone s).runtime ≠ some "7.0.0") := by
  refine ⟨by rfl, ?_⟩
  exact c1_hierarchy_invariant cexResolveId cexMapperNone
    { sdk := { versions := ["8.0.100"], allowPrerelease := false }
      runtime := { versions := ["7.0.0"], allowPrerelease := false }
      aspnetcore := { versions := [], allowPrerelease := false } }
    { sdk := ["8.0.100"], runtime := ["7.0.0"], aspnetcore := [] }
    (by rfl) "7.0.0" (Or.inl (by decide))

/-- C2: in the legacy deduplicator variant the surviving runtime request 8.0.x,
which resolves to 8.0.23, appears in the output as the original specifier
8.0.x, not as a resolved version of any surviving request. -/
theorem c2_counterexample :
    legacyDeduplicateVersions cexLegacyResolve
      { sdk := [], runtime := ["8.0.x"], aspnetcore := [] } =
      Except.ok { sdk := [], runtime := ["8.0.x"], aspnetcore := [] } ∧
    ¬ ∃ v ∈ (["8.0.x"] : List String),
      cexLegacyResolve v DotnetType.runtime = Except.ok "8.0.x" := by
  constructor
  · rfl
  · rintro ⟨v, hv, hres⟩
    rcases List.mem_singleton.mp hv with h
    subst h
    have hc : cexLegacyResolve "8.0.x" DotnetType.runtime = Except.ok "8.0.23" := rfl
    rw [hc] at hres
    injection hres with h2
    exact absurd h2 (by decide)

/-- C2 (amended): for the deduplicateVersions wired into main
(src/utils/versioning/version-deduplicator.ts), every entry of every output
list is the value some input specifier of that type resolved to. -/
theorem c2_outputs_resolved (resolve : Resolver) (mapper : SdkMapper)
    (vs : VersionSetWithPrerelease) (out : VersionSet)
    (h : deduplicateVersions resolve mapper vs = Except.ok out) :
    (∀ x ∈ out.sdk, ∃ v ∈ vs.sdk.versions,
      resolve v DotnetType.sdk vs.sdk.allowPrerelease = Except.ok x) ∧
    (∀ x ∈ out.runtime, ∃ v ∈ vs.runtime.versions,
      resolve v DotnetType.runtime vs.runtime.allowPrerelease = Except.ok x) ∧
    (∀ x ∈ out.aspnetcore, ∃ v ∈ vs.aspnetcore.versions,
      resolve v DotnetType.aspnetcore vs.aspnetcore.allowPrerelease = Except.ok x) := by
  obtain ⟨rs, rr, ra, h1, h2, h3, hout⟩ :=
    (deduplicateVersions_ok_iff resolve mapper vs out).mp h
  subst hout
  refine ⟨?_, ?_, ?_⟩
  · intro x hx
    rw [dedupCore_sdk, mem_removeDuplicatesWithinType] at hx
    obtain ⟨e, he, hev⟩ := List.mem_map.mp hx
    obtain ⟨ho, hr⟩ := resolveList_ok_forall resolve DotnetType.sdk vs.sdk.allowPrerelease
      vs.sdk.versions rs h1 e he
    exact ⟨e.original, ho, hev ▸ hr⟩
  · intro x hx
    rw [dedupCore_runtime, mem_removeDuplicatesWithinType] at hx
    obtain ⟨e, he, hev⟩ := List.mem_map.mp hx
    obtain ⟨hmem, -⟩ := List.mem_filter.mp he
    obtain ⟨ho, hr⟩ := resolveList_ok_forall resolve DotnetType.runtime vs.runtime.allowPrerelease
      vs.runtime.versions rr h2 e hmem
    exact ⟨e.original, ho, hev ▸ hr⟩
  · intro x hx
    rw [dedupCore_aspnetcore, mem_removeDuplicatesWithinType] at hx
    obtain ⟨e, he, hev⟩ := List.mem_map.mp hx
    obtain ⟨hmem, -⟩ := List.mem_filter.mp he
    obtain ⟨ho, hr⟩ := resolveList_ok_forall resolve DotnetType.aspnetcore vs.aspnetcore.allowPrerelease
      vs.aspnetcore.versions ra h3 e hmem
    exact ⟨e.original, ho, hev ▸ hr⟩

/-- C2 witness: the amended statement applied to a run where a wildcard
resolves to a concrete version and the output carries the resolved version. -/
theorem c2_outputs_resolved_witness :
    deduplicateVersions (fun v _ _ => cexLegacyResolve v DotnetType.runtime) cexMapperNone
      { sdk := { versions := [], allowPrerelease := false }
        runtime := { versions := ["8.0.x"], allowPrerelease := false }
        aspnetcore := { versions := [], allowPrerelease := false } } =
      Except.ok { sdk := [], runtime := ["8.0.23"], aspnetcore := [] } ∧
    (∀ x ∈ (["8.0.23"] : List String), ∃ v ∈ (["8.0.x"] : List String),
      (fun v _ _ => cexLegacyResolve v DotnetType.runtime : Resolver) v DotnetType.runtime false = Except.ok x) := by
  refine ⟨by rfl, ?_⟩
  exact (c2_outputs_resolved (fun v _ _ => cexLegacyResolve v DotnetType.runtime) cexMapperNone
    { sdk := { versions := [], allowPrerelease := false }
      runtime := { versions := ["8.0.x"], allowPrerelease := false }
      aspnetcore := { versions := [], allowPrerelease := false } }
    { sdk := [], runtime := ["8.0.23"], aspnetcore := [] }
    (by rfl)).2.1

/-- C3: the claimed drop rule uses the spec's merged included set; the code
does not: a runtime request equal only to an SDK-bundled aspnetcore version
(8.0.2, bundled by SDK 8.0.100) is in the merged union yet survives the
cross-type filtering. -/
theorem c3_counterexample :
    deduplicateVersions cexResolveId cexMapper1
      { sdk := { versions := ["8.0.100"], allowPrerelease := false }
        runtime := { versions := ["8.0.2"], allowPrerelease := false }
        aspnetcore := { versions := [], allowPrerelease := false } } =
      Except.ok { sdk := ["8.0.100"], runtime := ["8.0.2"], aspnetcore := [] } ∧
    "8.0.2" ∈ mergedIncludedOf cexMapper1 ["8.0.100"] := by
  exact ⟨rfl, by decide⟩

/-- C3 (amended): a runtime entry is removed by the cross-type filtering of
deduplicateVersions exactly when its resolved version is in the union of the
SDK-bundled RUNTIME versions, the resolved aspnetcore versions and the
resolved sdk versions; and the scenario sdk 8.0.100 with runtime 8.0.100
yields sdk [8.0.100], runtime empty. -/
theorem c3_runtime_drop_rule :
    (∀ (mapper : SdkMapper) (rs ra : List ResolvedEntry) (v : ResolvedEntry),
      runtimeKeep (sdkIncludedRuntimesOf mapper rs) (ra.map (fun e => e.resolved))
          (rs.map (fun e => e.resolved)) v = false ↔
        (v.resolved ∈ sdkIncludedRuntimesOf mapper rs ∨
         v.resolved ∈ ra.map (fun e => e.resolved) ∨
         v.resolved ∈ rs.map (fun e => e.resolved))) ∧
    deduplicateVersions cexResolveId cexMapperNone
      { sdk := { versions := ["8.0.100"], allowPrerelease := false }
        runtime := { versions := ["8.0.100"], allowPrerelease := false }
        aspnetcore := { versions := [], allowPrerelease := false } } =
      Except.ok { sdk := ["8.0.100"], runtime := [], aspnetcore := [] } := by
  constructor
  · intro mapper rs ra v
    rw [← Bool.not_eq_true, runtimeKeep_eq_true]
    constructor
    · intro hn
      by_contra hor
      push_neg at hor
      exact hn ⟨hor.1, hor.2.1, hor.2.2⟩
    · rintro (h | h | h) ⟨k1, k2, k3⟩
      · exact k1 h
      · exact k2 h
      · exact k3 h
  · rfl

theorem removeDupsAux_eq_firstOccurrencesAux (l : List ResolvedEntry) :
    ∀ seen, removeDupsAux seen l = firstOccurrencesAux seen (l.map (fun e => e.resolved)) := by
  induction l with
  | nil => intro seen; rfl
  | cons v rest ih =>
    intro seen
    simp only [List.map_cons, removeDupsAux, firstOccurrencesAux, ih]

theorem removeDuplicatesWithinType_eq_firstOccurrences (l : List ResolvedEntry) :
    removeDuplicatesWithinType l = firstOccurrences (l.map (fun e => e.resolved)) :=
  removeDupsAux_eq_firstOccurrencesAux l []

/-- C5: no SDK entry is removed by cross-type rules: the output sdk list is
exactly the resolved sdk versions collapsed to first occurrences in original
request order. -/
theorem c5_sdk_preserved (resolve : Resolver) (mapper : SdkMapper)
    (vs : VersionSetWithPrerelease) (rs : List ResolvedEntry) (out : VersionSet)
    (h1 : resolveList resolve DotnetType.sdk vs.sdk.allowPrerelease vs.sdk.versions = Except.ok rs)
    (h : deduplicateVersions resolve mapper vs = Except.ok out) :
    out.sdk = firstOccurrences (rs.map (fun e => e.resolved)) := by
  obtain ⟨rs2, rr, ra, hr1, hr2, hr3, hout⟩ :=
    (deduplicateVersions_ok_iff resolve mapper vs out).mp h
  subst hout
  rw [h1] at hr1
  injection hr1 with e1
  subst e1
  rw [dedupCore_sdk, removeDuplicatesWithinType_eq_firstOccurrences]

/-- C5 witness: a concrete run with a duplicate sdk specifier. -/
theorem c5_sdk_preserved_witness :
    (["8.0.100", "9.0.100"] : List String) =
      firstOccurrences ((idsOf ["8.0.100", "8.0.100", "9.0.100"]).map (fun e => e.resolved)) :=
  c5_sdk_preserved cexResolveId cexMapperNone
    { sdk := { versions := ["8.0.100", "8.0.100", "9.0.100"], allowPrerelease := false }
      runtime := { versions := [], allowPrerelease := false }
      aspnetcore := { versions := [], allowPrerelease := false } }
    (idsOf ["8.0.100", "8.0.100", "9.0.100"])
    { sdk := ["8.0.100", "9.0.100"], runtime := [], aspnetcore := [] }
    (by rfl) (by rfl)

/-- C6: if any single specifier fails to resolve, deduplicateVersions returns
an error (no partial version set), and the error is one thrown by the resolver
on a specifier of the input. -/
theorem c6_fail_fast (resolve : Resolver) (mapper : SdkMapper) (vs : VersionSetWithPrerelease)
    (h : (∃ v ∈ vs.sdk.versions, (resolve v DotnetType.sdk vs.sdk.allowPrerelease).isOk = false) ∨
         (∃ v ∈ vs.runtime.versions, (resolve v DotnetType.runtime vs.runtime.allowPrerelease).isOk = false) ∨
         (∃ v ∈ vs.aspnetcore.versions, (resolve v DotnetType.aspnetcore vs.aspnetcore.allowPrerelease).isOk = false)) :
    ∃ e, deduplicateVersions resolve mapper vs = Except.error e ∧
      ((∃ v ∈ vs.sdk.versions, resolve v DotnetType.sdk vs.sdk.allowPrerelease = Except.error e) ∨
       (∃ v ∈ vs.runtime.versions, resolve v DotnetType.runtime vs.runtime.allowPrerelease = Except.error e) ∨
       (∃ v ∈ vs.aspnetcore.versions, resolve v DotnetType.aspnetcore vs.aspnetcore.allowPrerelease = Except.error e)) := by
  unfold deduplicateVersions
  cases hs : resolveList resolve DotnetType.sdk vs.sdk.allowPrerelease vs.sdk.versions with
  | error e =>
    simp only [except_error_bind]
    exact ⟨e, rfl, Or.inl (resolveList_error_mem _ _ _ _ e hs)⟩
  | ok rs =>
    simp only [except_ok_bind]
    cases hrt : resolveList resolve DotnetType.runtime vs.runtime.allowPrerelease vs.runtime.versions with
    | error e =>
      simp only [except_error_bind]
      exact ⟨e, rfl, Or.inr (Or.inl (resolveList_error_mem _ _ _ _ e hrt))⟩
    | ok rr =>
      simp only [except_ok_bind]
      cases ha : resolveList resolve DotnetType.aspnetcore vs.aspnetcore.allowPrerelease vs.aspnetcore.versions with
      | error e =>
        simp only [except_error_bind]
        exact ⟨e, rfl, Or.inr (Or.inr (resolveList_error_mem _ _ _ _ e ha))⟩
      | ok ra =>
        exfalso
        rcases h with ⟨v, hv, hbad⟩ | ⟨v, hv, hbad⟩ | ⟨v, hv, hbad⟩
        · rw [resolveList_ok_isOk resolve DotnetType.sdk vs.sdk.allowPrerelease
            vs.sdk.versions rs hs v hv] at hbad
          cases hbad
        · rw [resolveList_ok_isOk resolve DotnetType.runtime vs.runtime.allowPrerelease
            vs.runtime.versions rr hrt v hv] at hbad
          cases hbad
        · rw [resolveList_ok_isOk resolve DotnetType.aspnetcore vs.aspnetcore.allowPrerelease
            vs.aspnetcore.versions ra ha v hv] at hbad
          cases hbad

/-- C6 witness: a concrete failing specifier aborts the whole batch. -/
theorem c6_fail_fast_witness :
    ((∃ v ∈ ({ sdk := { versions := [], allowPrerelease := false }
               runtime := { versions := ["8.0.0", "9.9.x"], allowPrerelease := false }
               aspnetcore := { versions := [], allowPrerelease := false } } : VersionSetWithPrerelease).sdk.versions,
        (cexResolveFailing v DotnetType.sdk false).isOk = false) ∨
     (∃ v ∈ ({ sdk := { versions := [], allowPrerelease := false }
               runtime := { versions := ["8.0.0", "9.9.x"], allowPrerelease := false }
               aspnetcore := { versions := [], allowPrerelease := false } } : VersionSetWithPrerelease).runtime.versions,
        (cexResolveFailing v DotnetType.runtime false).isOk = false) ∨
     (∃ v ∈ ({ sdk := { versions := [], allowPrerelease := false }
               runtime := { versions := ["8.0.0", "9.9.x"], allowPrerelease := false }
               aspnetcore := { versions := [], allowPrerelease := false } } : VersionSetWithPrerelease).aspnetcore.versions,
        (cexResolveFailing v DotnetType.aspnetcore false).isOk = false)) ∧
    ∃ e, deduplicateVersions cexResolveFailing cexMapperNone
        { sdk := { versions := [], allowPrerelease := false }
          runtime := { versions := ["8.0.0", "9.9.x"], allowPrerelease := false }
          aspnetcore := { versions := [], allowPrerelease := false } } = Except.error e ∧
      ((∃ v ∈ ([] : List String), cexResolveFailing v DotnetType.sdk false = Except.error e) ∨
       (∃ v ∈ (["8.0.0", "9.9.x"] : List String), cexResolveFailing v DotnetType.runtime false = Except.error e) ∨
       (∃ v ∈ ([] : List String), cexResolveFailing v DotnetType.aspnetcore false = Except.error e)) :=
  ⟨by decide,
   c6_fail_fast cexResolveFailing cexMapperNone
     { sdk := { versions := [], allowPrerelease := false }
       runtime := { versions := ["8.0.0", "9.9.x"], allowPrerelease := false }
       aspnetcore := { versions := [], allowPrerelease := false } }
     (by decide)⟩

/-! Lemmas for idempotence. -/

theorem versionSet_ext (a b : VersionSet) (h1 : a.sdk = b.sdk)
    (h2 : a.runtime = b.runtime) (h3 : a.aspnetcore = b.aspnetcore) : a = b := by
  cases a; cases b
  simp only at h1 h2 h3
  rw [h1, h2, h3]

theorem idsOf_map_resolved (l : List String) :
    (idsOf l).map (fun e => e.resolved) = l := by
  simp only [idsOf, List.map_map]
  exact List.map_id l

theorem mem_idsOf (l : List String) (e : ResolvedEntry) :
    e ∈ idsOf l ↔ ∃ v ∈ l, e = { original := v, resolved := v } := by
  simp [idsOf, eq_comm]

theorem mem_firstOccurrences (l : List String) (x : String) :
    x ∈ firstOccurrences l ↔ x ∈ l := by
  have h1 : removeDupsAux [] (idsOf l) = firstOccurrencesAux [] l := by
    rw [removeDupsAux_eq_firstOccurrencesAux, idsOf_map_resolved]
  rw [firstOccurrences, ← h1, mem_removeDupsAux, idsOf_map_resolved]
  simp

theorem firstOccurrencesAux_self (l : List String) :
    ∀ seen, l.Nodup → (∀ x ∈ l, x ∉ seen) → firstOccurrencesAux seen l = l := by
  induction l with
  | nil => intro seen _ _; rfl
  | cons v rest ih =>
    intro seen hnd hdisj
    have hv : v ∉ seen := hdisj v (List.mem_cons_self _ _)
    have hvr : v ∉ rest := (List.nodup_cons.mp hnd).1
    simp only [firstOccurrencesAux]
    rw [if_neg (fun hc => hv ((contains_true_iff _ _).mp hc))]
    congr 1
    refine ih (v :: seen) (List.nodup_cons.mp hnd).2 ?_
    intro x hx hxs
    rcases List.mem_cons.mp hxs with h1 | h1
    · exact hvr (h1 ▸ hx)
    · exact hdisj x (List.mem_cons_of_mem _ hx) h1

theorem firstOccurrences_self (l : List String) (h : l.Nodup) :
    firstOccurrences l = l :=
  firstOccurrencesAux_self l [] h (fun x _ => List.not_mem_nil x)

theorem removeDuplicatesWithinType_idsOf (l : List String) :
    removeDuplicatesWithinType (idsOf l) = firstOccurrences l := by
  rw [removeDuplicatesWithinType_eq_firstOccurrences, idsOf_map_resolved]

theorem nodup_removeDuplicatesWithinType (l : List ResolvedEntry) :
    (removeDuplicatesWithinType l).Nodup :=
  nodup_removeDupsAux l []

/-- C4: idempotence: when every input specifier is already a concrete resolved
version (the resolver returns it unchanged), running deduplicateVersions on its
own output (with the same prerelease flags) returns that output unchanged. -/
theorem c4_idempotent (resolve : Resolver) (mapper : SdkMapper)
    (vs : VersionSetWithPrerelease) (out : VersionSet)
    (hid1 : ∀ v ∈ vs.sdk.versions, resolve v DotnetType.sdk vs.sdk.allowPrerelease = Except.ok v)
    (hid2 : ∀ v ∈ vs.runtime.versions, resolve v DotnetType.runtime vs.runtime.allowPrerelease = Except.ok v)
    (hid3 : ∀ v ∈ vs.aspnetcore.versions, resolve v DotnetType.aspnetcore vs.aspnetcore.allowPrerelease = Except.ok v)
    (h : deduplicateVersions resolve mapper vs = Except.ok out) :
    deduplicateVersions resolve mapper (withFlags out vs) = Except.ok out := by
  have hS := resolveList_id resolve DotnetType.sdk vs.sdk.allowPrerelease vs.sdk.versions hid1
  have hR := resolveList_id resolve DotnetType.runtime vs.runtime.allowPrerelease vs.runtime.versions hid2
  have hA := resolveList_id resolve DotnetType.aspnetcore vs.aspnetcore.allowPrerelease vs.aspnetcore.versions hid3
  have hout : out = dedupCore mapper (idsOf vs.sdk.versions) (idsOf vs.runtime.versions)
      (idsOf vs.aspnetcore.versions) := by
    obtain ⟨rs, rr, ra, h1, h2, h3, ho⟩ := (deduplicateVersions_ok_iff resolve mapper vs out).mp h
    rw [hS] at h1
    rw [hR] at h2
    rw [hA] at h3
    injection h1 with e1
    injection h2 with e2
    injection h3 with e3
    rw [← e1, ← e2, ← e3] at ho
    exact ho
  have houtsdk : out.sdk = firstOccurrences vs.sdk.versions := by
    rw [hout, dedupCore_sdk, removeDuplicatesWithinType_idsOf]
  have hsub_sdk : ∀ x ∈ out.sdk, x ∈ vs.sdk.versions := by
    intro x hx
    rw [houtsdk, mem_firstOccurrences] at hx
    exact hx
  have hsub_runtime : ∀ x ∈ out.runtime, x ∈ vs.runtime.versions := by
    intro x hx
    rw [hout, dedupCore_runtime, mem_removeDuplicatesWithinType] at hx
    obtain ⟨e, he, hev⟩ := List.mem_map.mp hx
    obtain ⟨hmem, -⟩ := List.mem_filter.mp he
    obtain ⟨v, hv, hevv⟩ := (mem_idsOf _ e).mp hmem
    subst hevv
    have hvx : v = x := hev
    subst hvx
    exact hv
  have hsub_asp : ∀ x ∈ out.aspnetcore, x ∈ vs.aspnetcore.versions := by
    intro x hx
    rw [hout, dedupCore_aspnetcore, mem_removeDuplicatesWithinType] at hx
    obtain ⟨e, he, hev⟩ := List.mem_map.mp hx
    obtain ⟨hmem, -⟩ := List.mem_filter.mp he
    obtain ⟨v, hv, hevv⟩ := (mem_idsOf _ e).mp hmem
    subst hevv
    have hvx : v = x := hev
    subst hvx
    exact hv
  have hkeep_runtime_facts : ∀ x ∈ out.runtime,
      x ∉ sdkIncludedRuntimesOf mapper (idsOf vs.sdk.versions) ∧
      x ∉ vs.aspnetcore.versions ∧ x ∉ vs.sdk.versions := by
    intro x hx
    rw [hout, dedupCore_runtime, mem_removeDuplicatesWithinType] at hx
    obtain ⟨e, he, hev⟩ := List.mem_map.mp hx
    obtain ⟨hmem, hkeep⟩ := List.mem_filter.mp he
    obtain ⟨k1, k2, k3⟩ := (runtimeKeep_eq_true _ _ _ e).mp hkeep
    rw [idsOf_map_resolved] at k2 k3
    exact ⟨hev ▸ k1, hev ▸ k2, hev ▸ k3⟩
  have hkeep_asp_facts : ∀ x ∈ out.aspnetcore,
      x ∉ sdkIncludedRuntimesOf mapper (idsOf vs.sdk.versions) ∧ x ∉ vs.sdk.versions := by
    intro x hx
    rw [hout, dedupCore_aspnetcore, mem_removeDuplicatesWithinType] at hx
    obtain ⟨e, he, hev⟩ := List.mem_map.mp hx
    obtain ⟨hmem, hkeep⟩ := List.mem_filter.mp he
    obtain ⟨k1, k2⟩ := (aspnetcoreKeep_eq_true _ _ e).mp hkeep
    rw [idsOf_map_resolved] at k2
    exact ⟨hev ▸ k1, hev ▸ k2⟩
  have hinc2_sub : ∀ y, y ∈ sdkIncludedRuntimesOf mapper (idsOf out.sdk) →
      y ∈ sdkIncludedRuntimesOf mapper (idsOf vs.sdk.versions) := by
    intro y hy
    rw [mem_sdkIncludedRuntimesOf] at hy
    rw [mem_sdkIncludedRuntimesOf]
    obtain ⟨e, he, hsome⟩ := hy
    obtain ⟨s, hs, hes⟩ := (mem_idsOf _ e).mp he
    subst hes
    exact ⟨{ original := s, resolved := s },
      (mem_idsOf _ _).mpr ⟨s, hsub_sdk s hs, rfl⟩, hsome⟩
  have hS2 : resolveList resolve DotnetType.sdk vs.sdk.allowPrerelease out.sdk =
      Except.ok (idsOf out.sdk) :=
    resolveList_id _ _ _ _ (fun v hv => hid1 v (hsub_sdk v hv))
  have hR2 : resolveList resolve DotnetType.runtime vs.runtime.allowPrerelease out.runtime =
      Except.ok (idsOf out.runtime) :=
    resolveList_id _ _ _ _ (fun v hv => hid2 v (hsub_runtime v hv))
  have hA2 : resolveList resolve DotnetType.aspnetcore vs.aspnetcore.allowPrerelease out.aspnetcore =
      Except.ok (idsOf out.aspnetcore) :=
    resolveList_id _ _ _ _ (fun v hv => hid3 v (hsub_asp v hv))
  rw [deduplicateVersions_ok_iff]
  refine ⟨idsOf out.sdk, idsOf out.runtime, idsOf out.aspnetcore, hS2, hR2, hA2, ?_⟩
  refine versionSet_ext _ _ ?_ ?_ ?_
  · have hnd : out.sdk.Nodup := by
      rw [hout, dedupCore_sdk]
      exact nodup_removeDuplicatesWithinType _
    rw [dedupCore_sdk, removeDuplicatesWithinType_idsOf, firstOccurrences_self _ hnd]
  · have hnd : out.runtime.Nodup := by
      rw [hout, dedupCore_runtime]
      exact nodup_removeDuplicatesWithinType _
    rw [dedupCore_runtime]
    have hfilter : (idsOf out.runtime).filter
        (runtimeKeep (sdkIncludedRuntimesOf mapper (idsOf out.sdk))
          ((idsOf out.aspnetcore).map (fun e => e.resolved))
          ((idsOf out.sdk).map (fun e => e.resolved))) = idsOf out.runtime := by
      rw [List.filter_eq_self]
      intro e he
      obtain ⟨v, hv, hev⟩ := (mem_idsOf _ e).mp he
      subst hev
      rw [runtimeKeep_eq_true, idsOf_map_resolved, idsOf_map_resolved]
      obtain ⟨f1, f2, f3⟩ := hkeep_runtime_facts v hv
      refine ⟨fun hmem => f1 (hinc2_sub _ hmem), fun hmem => f2 (hsub_asp _ hmem),
        fun hmem => f3 (hsub_sdk _ hmem)⟩
    rw [hfilter, removeDuplicatesWithinType_idsOf, firstOccurrences_self _ hnd]
  · have hnd : out.aspnetcore.Nodup := by
      rw [hout, dedupCore_aspnetcore]
      exact nodup_removeDuplicatesWithinType _
    rw [dedupCore_aspnetcore]
    have hfilter : (idsOf out.aspnetcore).filter
        (aspnetcoreKeep (sdkIncludedRuntimesOf mapper (idsOf out.sdk))
          ((idsOf out.sdk).map (fun e => e.resolved))) = idsOf out.aspnetcore := by
      rw [List.filter_eq_self]
      intro e he
      obtain ⟨v, hv, hev⟩ := (mem_idsOf _ e).mp he
      subst hev
      rw [aspnetcoreKeep_eq_true, idsOf_map_resolved]
      obtain ⟨f1, f2⟩ := hkeep_asp_facts v hv
      exact ⟨fun hmem => f1 (hinc2_sub _ hmem), fun hmem => f2 (hsub_sdk _ hmem)⟩
    rw [hfilter, removeDuplicatesWithinType_idsOf, firstOccurrences_self _ hnd]

/-- C4 witness: rerunning deduplication on a concrete deduplicated output is a
no-op. -/
theorem c4_idempotent_witness :
    deduplicateVersions cexResolveId cexMapperNone
      (withFlags { sdk := ["8.0.100"], runtime := [], aspnetcore := [] }
        { sdk := { versions := ["8.0.100"], allowPrerelease := false }
          runtime := { versions := ["8.0.100"], allowPrerelease := false }
          aspnetcore := { versions := [], allowPrerelease := false } }) =
      Except.ok { sdk := ["8.0.100"], runtime := [], aspnetcore := [] } :=
  c4_idempotent cexResolveId cexMapperNone
    { sdk := { versions := ["8.0.100"], allowPrerelease := false }
      runtime := { versions := ["8.0.100"], allowPrerelease := false }
      aspnetcore := { versions := [], allowPrerelease := false } }
    { sdk := ["8.0.100"], runtime := [], aspnetcore := [] }
    (fun v _ => rfl) (fun v _ => rfl) (fun v _ => rfl) (by rfl)

/-! Order facts for the tuple comparator. -/

theorem charListLe_trans (a : List Char) :
    ∀ b c, charListLe a b = true → charListLe b c = true → charListLe a c = true := by
  induction a with
  | nil => intro b c _ _; rfl
  | cons x xs ih =>
    intro b c h1 h2
    cases b with
    | nil => exact absurd h1 (by simp [charListLe])
    | cons y ys =>
      cases c with
      | nil => exact absurd h2 (by simp [charListLe])
      | cons z zs =>
        simp only [charListLe] at h1 h2 ⊢
        by_cases hxy : x = y
        · subst hxy
          rw [if_pos rfl] at h1
          by_cases hxz : x = z
          · subst hxz
            rw [if_pos rfl] at h2 ⊢
            exact ih ys zs h1 h2
          · rw [if_neg hxz] at h2 ⊢
            exact h2
        · rw [if_neg hxy] at h1
          have hlt1 : x < y := of_decide_eq_true h1
          by_cases hyz : y = z
          · subst hyz
            rw [if_neg hxy]
            exact h1
          · rw [if_neg hyz] at h2
            have hlt2 : y < z := of_decide_eq_true h2
            have hltz : x < z := lt_trans hlt1 hlt2
            rw [if_neg (ne_of_lt hltz)]
            exact decide_eq_true hltz

theorem charListLe_antisymm (a : List Char) :
    ∀ b, charListLe a b = true → charListLe b a = true → a = b := by
  induction a with
  | nil =>
    intro b _ h2
    cases b with
    | nil => rfl
    | cons y ys => exact absurd h2 (by simp [charListLe])
  | cons x xs ih =>
    intro b h1 h2
    cases b with
    | nil => exact absurd h1 (by simp [charListLe])
    | cons y ys =>
      simp only [charListLe] at h1 h2
      by_cases hxy : x = y
      · subst hxy
        rw [if_pos rfl] at h1 h2
        rw [ih ys h1 h2]
      · rw [if_neg hxy] at h1
        rw [if_neg (Ne.symm hxy)] at h2
        exact absurd (lt_trans (of_decide_eq_true h1) (of_decide_eq_true h2)) (lt_irrefl x)

theorem charListLe_total (a : List Char) :
    ∀ b, charListLe a b = true ∨ charListLe b a = true := by
  induction a with
  | nil => intro b; exact Or.inl rfl
  | cons x xs ih =>
    intro b
    cases b with
    | nil => exact Or.inr rfl
    | cons y ys =>
      simp only [charListLe]
      by_cases hxy : x = y
      · subst hxy
        rw [if_pos rfl, if_pos rfl]
        exact ih ys
      · rw [if_neg hxy, if_neg (Ne.symm hxy)]
        rcases lt_trichotomy x y with h | h | h
        · exact Or.inl (decide_eq_true h)
        · exact absurd h hxy
        · exact Or.inr (decide_eq_true h)

/-- C7: generateCacheKey is invariant under permuting each per-type version
list: the serialized tuples are sorted before joining and hashing. -/
theorem c7_cache_key_permutation (p a : String) (v1 v2 : CacheVersions)
    (h1 : v1.sdk.Perm v2.sdk) (h2 : v1.runtime.Perm v2.runtime)
    (h3 : v1.aspnetcore.Perm v2.aspnetcore) :
    generateCacheKey p a v1 = generateCacheKey p a v2 := by
  haveI hta : IsAntisymm String (fun x y => strLe x y = true) :=
    ⟨fun x y hx hy => String.ext (charListLe_antisymm x.data y.data hx hy)⟩
  haveI htt : IsTotal String (fun x y => strLe x y = true) :=
    ⟨fun x y => charListLe_total x.data y.data⟩
  haveI htr : IsTrans String (fun x y => strLe x y = true) :=
    ⟨fun x y z => charListLe_trans x.data y.data z.data⟩
  have hperm : (serializePlan v1).Perm (serializePlan v2) :=
    ((h1.map _).append (h2.map _)).append (h3.map _)
  have hsorted : List.insertionSort (fun x y => strLe x y = true) (serializePlan v1) =
      List.insertionSort (fun x y => strLe x y = true) (serializePlan v2) := by
    have hp2 := (List.perm_insertionSort (fun x y => strLe x y = true) (serializePlan v1)).trans
      (hperm.trans (List.perm_insertionSort (fun x y => strLe x y = true) (serializePlan v2)).symm)
    have hs1 := List.sorted_insertionSort (fun x y => strLe x y = true) (serializePlan v1)
    have hs2 := List.sorted_insertionSort (fun x y => strLe x y = true) (serializePlan v2)
    exact List.eq_of_perm_of_sorted hp2 hs1 hs2
  unfold generateCacheKey versionString
  rw [hsorted]

/-- C7 witness: permuting a concrete sdk list leaves the key unchanged. -/
theorem c7_cache_key_permutation_witness :
    ((["8.0.100", "9.0.100"] : List String).Perm ["9.0.100", "8.0.100"] ∧
     (["7.0.0"] : List String).Perm ["7.0.0"] ∧
     (([] : List String)).Perm []) ∧
    generateCacheKey "linux" "x64"
        { sdk := ["8.0.100", "9.0.100"], runtime := ["7.0.0"], aspnetcore := [] } =
      generateCacheKey "linux" "x64"
        { sdk := ["9.0.100", "8.0.100"], runtime := ["7.0.0"], aspnetcore := [] } :=
  ⟨⟨by decide, by decide, by decide⟩,
   c7_cache_key_permutation "linux" "x64"
     { sdk := ["8.0.100", "9.0.100"], runtime := ["7.0.0"], aspnetcore := [] }
     { sdk := ["9.0.100", "8.0.100"], runtime := ["7.0.0"], aspnetcore := [] }
     (by decide) (by decide) (by decide)⟩

/-- C8: the key is not injective in the set of (type, version) tuples: a
version containing a comma makes two different plans serialize to the same
joined string, so the keys collide without any hash collision. -/
theorem c8_counterexample :
    (("sdk", "a") ∈ planTuples { sdk := ["a"], runtime := ["b"], aspnetcore := [] } ∧
     ("sdk", "a") ∉ planTuples { sdk := [], runtime := ["b,sdk:a"], aspnetcore := [] }) ∧
    generateCacheKey "linux" "x64" { sdk := [], runtime := ["b,sdk:a"], aspnetcore := [] } =
      generateCacheKey "linux" "x64" { sdk := ["a"], runtime := ["b"], aspnetcore := [] } := by
  refine ⟨⟨by decide, by decide⟩, ?_⟩
  have hvs : versionString { sdk := [], runtime := ["b,sdk:a"], aspnetcore := [] } =
      versionString { sdk := ["a"], runtime := ["b"], aspnetcore := [] } := by decide
  exact congrArg
    (fun s => "dotnet-archives-" ++ "linux" ++ "-" ++ "x64" ++ "-" ++ shortHash12 (sha256hex s))
    hvs

/-! Injectivity of the serialized hash preimage for comma-free versions. -/

theorem append_sep_inj (c : Char) (l1 : List Char) :
    ∀ (l2 r1 r2 : List Char), c ∉ l1 → c ∉ l2 →
    l1 ++ c :: r1 = l2 ++ c :: r2 → l1 = l2 ∧ r1 = r2 := by
  induction l1 with
  | nil =>
    intro l2 r1 r2 _ h2 he
    cases l2 with
    | nil =>
      simp only [List.nil_append] at he
      injection he with _ hr
      exact ⟨rfl, hr⟩
    | cons b bs =>
      simp only [List.nil_append, List.cons_append] at he
      injection he with hb _
      subst hb
      exact absurd (List.mem_cons_self _ _) h2
  | cons x xs ih =>
    intro l2 r1 r2 h1 h2 he
    cases l2 with
    | nil =>
      simp only [List.cons_append, List.nil_append] at he
      injection he with hb _
      subst hb
      exact absurd (List.mem_cons_self _ _) h1
    | cons y ys =>
      simp only [List.cons_append] at he
      injection he with hxy hrest
      subst hxy
      obtain ⟨ha, hb⟩ := ih ys r1 r2 (fun hm => h1 (List.mem_cons_of_mem _ hm))
        (fun hm => h2 (List.mem_cons_of_mem _ hm)) hrest
      exact ⟨by rw [ha], hb⟩

theorem joinComma_mem_comma (a : String) (b : String) (r : List String) :
    ',' ∈ (joinComma (a :: b :: r)).data := by
  show ',' ∈ (a ++ "," ++ joinComma (b :: r)).data
  rw [String.data_append, String.data_append]
  exact List.mem_append.mpr (Or.inl (List.mem_append.mpr (Or.inr (List.mem_cons_self _ _))))

theorem joinComma_inj (l1 : List String) :
    ∀ l2 : List String,
    (∀ s ∈ l1, ¬s = "" ∧ ',' ∉ s.data) → (∀ s ∈ l2, ¬s = "" ∧ ',' ∉ s.data) →
    joinComma l1 = joinComma l2 → l1 = l2 := by
  induction l1 with
  | nil =>
    intro l2 h1 h2 he
    cases l2 with
    | nil => rfl
    | cons a t =>
      cases t with
      | nil => exact absurd he.symm (h2 a (List.mem_cons_self _ _)).1
      | cons b r =>
        have hmem := joinComma_mem_comma a b r
        rw [← he] at hmem
        have hnil : (joinComma ([] : List String)).data = [] := rfl
        rw [hnil] at hmem
        cases hmem
  | cons a t ih =>
    intro l2 h1 h2 he
    cases t with
    | nil =>
      cases l2 with
      | nil => exact absurd he (h1 a (List.mem_cons_self _ _)).1
      | cons b s =>
        cases s with
        | nil => rw [show a = b from he]
        | cons c r =>
          have hmem := joinComma_mem_comma b c r
          rw [← he] at hmem
          exact absurd hmem (h1 a (List.mem_cons_self _ _)).2
    | cons b r =>
      cases l2 with
      | nil =>
        have hmem := joinComma_mem_comma a b r
        rw [he] at hmem
        have hnil : (joinComma ([] : List String)).data = [] := rfl
        rw [hnil] at hmem
        cases hmem
      | cons c s =>
        cases s with
        | nil =>
          have hmem := joinComma_mem_comma a b r
          rw [he] at hmem
          exact absurd hmem (h2 c (List.mem_cons_self _ _)).2
        | cons d s2 =>
          simp only [joinComma] at he
          have hd := congrArg String.data he
          have hcomma : ("," : String).data = [','] := rfl
          rw [String.data_append, String.data_append, String.data_append,
            String.data_append, hcomma, List.append_assoc, List.append_assoc,
            List.singleton_append, List.singleton_append] at hd
          obtain ⟨hac, hjoin⟩ := append_sep_inj ',' a.data c.data _ _
            (h1 a (List.mem_cons_self _ _)).2 (h2 c (List.mem_cons_self _ _)).2 hd
          have hae : a = c := String.ext hac
          have hje : joinComma (b :: r) = joinComma (d :: s2) := String.ext hjoin
          have hrest := ih (d :: s2) (fun s hs => h1 s (List.mem_cons_of_mem _ hs))
            (fun s hs => h2 s (List.mem_cons_of_mem _ hs)) hje
          rw [hae, hrest]

theorem splitAtColon_append (t v : List Char) (h : ':' ∉ t) :
    splitAtColon (t ++ ':' :: v) = (t, v) := by
  induction t with
  | nil => simp [splitAtColon]
  | cons c cs ih =>
    have hc : c ≠ ':' := fun he => h (he ▸ List.mem_cons_self c cs)
    simp only [List.cons_append, splitAtColon]
    rw [if_neg hc]
    simp only [List.append_eq]
    rw [ih (fun hm => h (List.mem_cons_of_mem _ hm))]

theorem parseTuple_tupleStr (t : String × String) (h : ':' ∉ t.1.data) :
    parseTuple (tupleStr t) = t := by
  obtain ⟨ty, ver⟩ := t
  simp only [tupleStr, parseTuple]
  have hcolon : (":" : String).data = [':'] := rfl
  have hd : (ty ++ ":" ++ ver).data = ty.data ++ ':' :: ver.data := by
    rw [String.data_append, String.data_append, hcolon, List.append_assoc,
      List.singleton_append]
  rw [hd, splitAtColon_append ty.data ver.data h]

theorem serializePlan_eq_map (v : CacheVersions) :
    serializePlan v = (planTuples v).map tupleStr := by
  simp only [serializePlan, planTuples, List.map_append, List.map_map]
  rfl

theorem planTuples_fst (v : CacheVersions) :
    ∀ t ∈ planTuples v, t.1 = "sdk" ∨ t.1 = "runtime" ∨ t.1 = "aspnetcore" := by
  intro t ht
  simp only [planTuples, List.mem_append, List.mem_map] at ht
  rcases ht with (⟨s, -, rfl⟩ | ⟨s, -, rfl⟩) | ⟨s, -, rfl⟩
  · exact Or.inl rfl
  · exact Or.inr (Or.inl rfl)
  · exact Or.inr (Or.inr rfl)

theorem serializePlan_mem_props (v : CacheVersions)
    (hv : ∀ s ∈ v.sdk ++ v.runtime ++ v.aspnetcore, ',' ∉ s.data) :
    ∀ s ∈ serializePlan v, ¬s = "" ∧ ',' ∉ s.data := by
  intro s hs
  simp only [serializePlan, List.mem_append, List.mem_map] at hs
  rcases hs with (⟨x, hx, rfl⟩ | ⟨x, hx, rfl⟩) | ⟨x, hx, rfl⟩
  · refine ⟨fun he => ?_, fun hm => ?_⟩
    · have hde : ("sdk:" ++ x).data = [] := by rw [he]
      rw [String.data_append] at hde
      exact absurd (List.append_eq_nil.mp hde).1 (by decide)
    · rw [String.data_append] at hm
      rcases List.mem_append.mp hm with hm1 | hm1
      · exact absurd hm1 (by decide)
      · exact hv x (List.mem_append.mpr (Or.inl (List.mem_append.mpr (Or.inl hx)))) hm1
  · refine ⟨fun he => ?_, fun hm => ?_⟩
    · have hde : ("runtime:" ++ x).data = [] := by rw [he]
      rw [String.data_append] at hde
      exact absurd (List.append_eq_nil.mp hde).1 (by decide)
    · rw [String.data_append] at hm
      rcases List.mem_append.mp hm with hm1 | hm1
      · exact absurd hm1 (by decide)
      · exact hv x (List.mem_append.mpr (Or.inl (List.mem_append.mpr (Or.inr hx)))) hm1
  · refine ⟨fun he => ?_, fun hm => ?_⟩
    · have hde : ("aspnetcore:" ++ x).data = [] := by rw [he]
      rw [String.data_append] at hde
      exact absurd (List.append_eq_nil.mp hde).1 (by decide)
    · rw [String.data_append] at hm
      rcases List.mem_append.mp hm with hm1 | hm1
      · exact absurd hm1 (by decide)
      · exact hv x (List.mem_append.mpr (Or.inr hx)) hm1

/-- C8 (amended): for version sets whose versions contain no comma, the string
handed to the hash determines the multiset of (type, version) tuples, so
distinct plans produce distinct hash inputs; and the key differs whenever
platform or architecture differ (they appear in the key in clear, outside the
hash).  Key injectivity through the hash itself cannot hold: the hash is
SHA-256 truncated to 12 hex characters, and with comma-carrying versions even
the hash input collides. -/
theorem c8_cache_key_sensitivity :
    (∀ v1 v2 : CacheVersions,
      (∀ s ∈ v1.sdk ++ v1.runtime ++ v1.aspnetcore, ',' ∉ s.data) →
      (∀ s ∈ v2.sdk ++ v2.runtime ++ v2.aspnetcore, ',' ∉ s.data) →
      (planTuples v1 : Multiset (String × String)) ≠ (planTuples v2 : Multiset (String × String)) →
      versionString v1 ≠ versionString v2) ∧
    (∀ (p1 a1 p2 a2 : String) (v1 v2 : CacheVersions),
      '-' ∉ p1.data → '-' ∉ a1.data → '-' ∉ p2.data → '-' ∉ a2.data →
      (p1 ≠ p2 ∨ a1 ≠ a2) →
      generateCacheKey p1 a1 v1 ≠ generateCacheKey p2 a2 v2) := by
  constructor
  · intro v1 v2 hc1 hc2 hmne heq
    apply hmne
    have hmem1 : ∀ s ∈ List.insertionSort (fun x y => strLe x y = true) (serializePlan v1),
        ¬s = "" ∧ ',' ∉ s.data := by
      intro s hs
      exact serializePlan_mem_props v1 hc1 s ((List.mem_insertionSort _).mp hs)
    have hmem2 : ∀ s ∈ List.insertionSort (fun x y => strLe x y = true) (serializePlan v2),
        ¬s = "" ∧ ',' ∉ s.data := by
      intro s hs
      exact serializePlan_mem_props v2 hc2 s ((List.mem_insertionSort _).mp hs)
    have hL : List.insertionSort (fun x y => strLe x y = true) (serializePlan v1) =
        List.insertionSort (fun x y => strLe x y = true) (serializePlan v2) :=
      joinComma_inj _ _ hmem1 hmem2 heq
    have hp1 := List.perm_insertionSort (fun x y => strLe x y = true) (serializePlan v1)
    have hp2 := List.perm_insertionSort (fun x y => strLe x y = true) (serializePlan v2)
    have hp2b : (List.insertionSort (fun x y => strLe x y = true) (serializePlan v1)).Perm
        (serializePlan v2) := by
      rw [hL]
      exact hp2
    have hperm : (serializePlan v1).Perm (serializePlan v2) := hp1.symm.trans hp2b
    have hms : (serializePlan v1 : Multiset String) = serializePlan v2 :=
      Multiset.coe_eq_coe.mpr hperm
    rw [serializePlan_eq_map, serializePlan_eq_map] at hms
    rw [← Multiset.map_coe, ← Multiset.map_coe] at hms
    have hparsed := congrArg (Multiset.map parseTuple) hms
    rw [Multiset.map_map, Multiset.map_map] at hparsed
    have hcolon : ∀ w : CacheVersions,
        ∀ t ∈ (planTuples w : Multiset (String × String)),
        (parseTuple ∘ tupleStr) t = id t := by
      intro w t ht
      have hfst := planTuples_fst w t (Multiset.mem_coe.mp ht)
      have hnc : ':' ∉ t.1.data := by
        rcases hfst with h | h | h
        · rw [h]; decide
        · rw [h]; decide
        · rw [h]; decide
      show parseTuple (tupleStr t) = t
      exact parseTuple_tupleStr t hnc
    have hid1 : Multiset.map (parseTuple ∘ tupleStr) (planTuples v1 : Multiset (String × String)) =
        (planTuples v1 : Multiset (String × String)) := by
      rw [Multiset.map_congr rfl (hcolon v1), Multiset.map_id]
    have hid2 : Multiset.map (parseTuple ∘ tupleStr) (planTuples v2 : Multiset (String × String)) =
        (planTuples v2 : Multiset (String × String)) := by
      rw [Multiset.map_congr rfl (hcolon v2), Multiset.map_id]
    rw [hid1, hid2] at hparsed
    exact hparsed
  · intro p1 a1 p2 a2 v1 v2 hp1 ha1 hp2 ha2 hne heq
    have hd := congrArg String.data heq
    simp only [generateCacheKey, String.data_append] at hd
    simp only [List.append_assoc, List.singleton_append] at hd
    have hd2 := List.append_cancel_left hd
    obtain ⟨hpp, hrest⟩ := append_sep_inj '-' p1.data p2.data _ _ hp1 hp2 hd2
    obtain ⟨haa, -⟩ := append_sep_inj '-' a1.data a2.data _ _ ha1 ha2 hrest
    rcases hne with h | h
    · exact h (String.ext hpp)
    · exact h (String.ext haa)

/-- C8 witness: the amended sensitivity applied to concrete inputs: different
tuple multisets give different hash preimages, and a different architecture
gives a different key. -/
theorem c8_cache_key_sensitivity_witness :
    ((∀ s ∈ (["8.0.100"] : List String) ++ [] ++ [], ',' ∉ s.data) ∧
     (∀ s ∈ (["9.0.100"] : List String) ++ [] ++ [], ',' ∉ s.data) ∧
     (planTuples { sdk := ["8.0.100"], runtime := [], aspnetcore := [] } :
        Multiset (String × String)) ≠
       (planTuples { sdk := ["9.0.100"], runtime := [], aspnetcore := [] } :
        Multiset (String × String)) ∧
     versionString { sdk := ["8.0.100"], runtime := [], aspnetcore := [] } ≠
       versionString { sdk := ["9.0.100"], runtime := [], aspnetcore := [] }) ∧
    (('-' ∉ ("linux" : String).data) ∧ ('-' ∉ ("x64" : String).data) ∧
     ('-' ∉ ("arm64" : String).data) ∧ ("x64" : String) ≠ "arm64" ∧
     generateCacheKey "linux" "x64" { sdk := ["8.0.100"], runtime := [], aspnetcore := [] } ≠
       generateCacheKey "linux" "arm64" { sdk := ["8.0.100"], runtime := [], aspnetcore := [] }) := by
  constructor
  · refine ⟨by decide, by decide, ?_, ?_⟩
    · decide
    · exact (c8_cache_key_sensitivity).1
        { sdk := ["8.0.100"], runtime := [], aspnetcore := [] }
        { sdk := ["9.0.100"], runtime := [], aspnetcore := [] }
        (by decide) (by decide) (by decide)
  · refine ⟨by decide, by decide, by decide, by decide, ?_⟩
    exact (c8_cache_key_sensitivity).2 "linux" "x64" "linux" "arm64"
      { sdk := ["8.0.100"], runtime := [], aspnetcore := [] }
      { sdk := ["8.0.100"], runtime := [], aspnetcore := [] }
      (by decide) (by decide) (by decide) (by decide) (Or.inr (by decide))

/-! Api-cache theorems. -/

/-- C9: a cache file that parses as JSON but is not valid cached-response
JSON (fresh numeric timestamp, data field missing) is NOT treated as a miss:
fetchWithCache returns the undefined data as a hit instead of fetching. -/
theorem c9_counterexample :
    isValidCachedResponse (CacheFileState.jsonObj (some 0) JsField.absent) = false ∧
    fetchWithCache true (CacheFileState.jsonObj (some 0) JsField.absent) 0 (Except.ok "fresh") =
      Except.ok JsResult.jsUndefined ∧
    (Except.ok JsResult.jsUndefined : Except String JsResult) ≠
      Except.ok (JsResult.jsValue "fresh") := by
  refine ⟨rfl, rfl, ?_⟩
  intro h
  injection h with h2
  cases h2

/-- C9 (amended): a missing file, unparseable text, JSON null, a JSON value
without a numeric timestamp, or a stale timestamp is a miss and triggers the
fresh fetch, whose own failure is the only failure fetchWithCache can surface;
but a parsed object with a fresh numeric timestamp is treated as a hit even
when its data field is absent, returning the undefined payload instead of
fetching. -/
theorem c9_malformed_cache_miss (file : CacheFileState) (now : Int)
    (fr : Except String String) :
    ((file = CacheFileState.missing ∨ file = CacheFileState.notJson ∨
      file = CacheFileState.jsonNull ∨
      (∃ d, file = CacheFileState.jsonObj none d) ∨
      (∃ t d, file = CacheFileState.jsonObj (some t) d ∧ ¬ now - t < cacheDurationMs)) →
      fetchWithCache true file now fr =
        (match fr with
         | Except.error e => Except.error ("API request failed: " ++ e)
         | Except.ok d => Except.ok (JsResult.jsValue d))) ∧
    (∀ t, file = CacheFileState.jsonObj (some t) JsField.absent →
      now - t < cacheDurationMs →
      fetchWithCache true file now fr = Except.ok JsResult.jsUndefined) ∧
    (∀ d, fr = Except.ok d → ∃ r, fetchWithCache true file now fr = Except.ok r) := by
  refine ⟨?_, ?_, ?_⟩
  · intro hmiss
    have hget : getCachedResponse true file now = JsResult.jsNull := by
      rcases hmiss with h | h | h | ⟨d, h⟩ | ⟨t, d, h, hstale⟩
      · rw [h]; rfl
      · rw [h]; rfl
      · rw [h]; rfl
      · rw [h]; rfl
      · rw [h]
        cases d with
        | absent =>
          show (if now - t < cacheDurationMs then JsResult.jsUndefined else JsResult.jsNull) =
            JsResult.jsNull
          rw [if_neg hstale]
        | jsnull =>
          show (if now - t < cacheDurationMs then JsResult.jsNull else JsResult.jsNull) =
            JsResult.jsNull
          rw [if_neg hstale]
        | value s =>
          show (if now - t < cacheDurationMs then JsResult.jsValue s else JsResult.jsNull) =
            JsResult.jsNull
          rw [if_neg hstale]
    unfold fetchWithCache
    rw [hget]
  · intro t hfile hfresh
    subst hfile
    have hget : getCachedResponse true (CacheFileState.jsonObj (some t) JsField.absent) now =
        JsResult.jsUndefined := by
      show (if now - t < cacheDurationMs then JsResult.jsUndefined else JsResult.jsNull) =
        JsResult.jsUndefined
      rw [if_pos hfresh]
    unfold fetchWithCache
    rw [hget]
  · intro d hfr
    subst hfr
    unfold fetchWithCache
    cases hget : getCachedResponse true file now with
    | jsNull => exact ⟨JsResult.jsValue d, rfl⟩
    | jsUndefined => exact ⟨JsResult.jsUndefined, rfl⟩
    | jsValue s => exact ⟨JsResult.jsValue s, rfl⟩

/-- C9 witness: an unparseable cache file triggers the fresh fetch. -/
theorem c9_malformed_cache_miss_witness :
    (CacheFileState.notJson = CacheFileState.missing ∨
     CacheFileState.notJson = CacheFileState.notJson ∨
     CacheFileState.notJson = CacheFileState.jsonNull ∨
     (∃ d, CacheFileState.notJson = CacheFileState.jsonObj none d) ∨
     (∃ t d, CacheFileState.notJson = CacheFileState.jsonObj (some t) d ∧
       ¬ (0 : Int) - t < cacheDurationMs)) ∧
    fetchWithCache true CacheFileState.notJson 0 (Except.ok "fresh") =
      Except.ok (JsResult.jsValue "fresh") :=
  ⟨Or.inr (Or.inl rfl),
   (c9_malformed_cache_miss CacheFileState.notJson 0 (Except.ok "fresh")).1
     (Or.inr (Or.inl rfl))⟩
